import Mathlib

/-!
# Verification of `fs_mol/external_repositories/mhnfs/mhnfs/modules.py`

Shallow embedding of the MHNfs forward-computation modules.

Tensors are modelled as nested lists in row-major order:
a tensor of shape `[B, S, D]` is a `List (List (List _))` with `B` outer
entries, each holding `S` rows of `D` scalars.  `torch` primitives are
embedded as the corresponding list operations:

* `torch.cat(_, dim=1)`  — row-wise list append (`catDim1`);
* `torch.cat(_, dim=2)`  — append along the innermost lists;
* `t[:, :, :k]`          — `List.take k` on the innermost lists (which, like
  torch slicing, clamps to the available width);
* `reshape(1, B*S, D)`   — `List.flatten` of the outer layout (`flattenBatch`);
* `reshape(B, S, D)`     — chunking the joined sequence (`unflattenBatch`);
* `torch.transpose(_, 0, 1)` — `transpose01`;
* elementwise `+`, `*`   — `List.zipWith`.

Python dictionary lookups (`activation_function_mapping[...]`,
`dropout_mapping[...]`) are embedded as `Option`-valued lookups: a `KeyError`
(a fatal failure) is `none`.

The external learned modules (`Hopfield`, `torch.nn.TransformerEncoder`, the
`nn.LayerNorm` instances) are black-box collaborators of this file's code; the
embedded forward functions take them as function parameters, exactly as the
source calls `self.hopfield(...)`, `self.transformer(...)`,
`self.layernorm_*(...)`.

Scalars of the similarity scorer are embedded as real numbers (the source
computes square roots); the purely structural modules (which only add,
multiply and rearrange scalars) are polymorphic over the scalar ring, so
that concrete runs can be evaluated over `ℤ` (integer-valued inputs, which
floats represent exactly) while the statements hold for any scalars.
-/

namespace MHNfs

/-- A rank-3 tensor `[B, S, D]` as nested lists (row-major). -/
abbrev T3 (α : Type) := List (List (List α))

/-- `torch.cat(_, dim=1)`: concatenate two `[B, ·, D]` tensors along the
set axis, batch entry by batch entry. -/
def catDim1 {α : Type} (x y : T3 α) : T3 α :=
  List.zipWith (fun a b => a ++ b) x y

/-- `torch.transpose(t, 0, 1)` on a rectangular `[A, B, D]` tensor. -/
def transpose01 {α : Type} (t : T3 α) : T3 α :=
  (List.range ((t.headD []).length)).map (fun j => t.map (fun row => row.getD j []))

/-- Elementwise tensor addition (`+` on equal-shaped tensors). -/
def addT3 {α : Type} [Add α] (x y : T3 α) : T3 α :=
  List.zipWith (List.zipWith (List.zipWith (fun a b => a + b))) x y

/-- `torch.zeros_like`-style tensor of the same layout. -/
def zerosLike {α : Type} [Zero α] (t : T3 α) : T3 α :=
  t.map (fun b => b.map (fun r => r.map (fun _ => 0)))

/-- `s.reshape(1, B*S, D)` of `ContextModule.forward` (line 172): the batch
axis is folded into one long sequence. -/
def flattenBatch {α : Type} (s : T3 α) : T3 α :=
  [s.flatten]

/-- `s_updated.reshape(B, S, D)` of `ContextModule.forward` (lines 179-181):
split the joined sequence back into `B` chunks of `S` rows. -/
def unflattenBatch {α : Type} (B S : ℕ) (t : T3 α) : T3 α :=
  (List.range B).map (fun b => ((t.flatten.drop (b * S)).take S))

/-- `ContextModule.forward` (modules.py lines 139-196).  The learned Hopfield
retrieval `self.hopfield((context, s_flattend, context))` is an external
module; it is passed as the function `hopfield context s_flattend`. -/
def ContextModule_forward {α : Type} [Add α]
    (hopfield : T3 α → T3 α → T3 α)
    (query_embedding support_actives_embedding support_inactives_embedding
      context_set_embedding : T3 α) : T3 α × T3 α × T3 α :=
  let s := catDim1 query_embedding
    (catDim1 support_actives_embedding support_inactives_embedding)
  let s_flattend := flattenBatch s
  let s_h := hopfield context_set_embedding s_flattend
  let s_updated := addT3 s_flattend s_h
  let s_updated_inputShape := unflattenBatch s.length ((s.headD []).length) s_updated
  let padding_size_actives := (support_actives_embedding.headD []).length
  (s_updated_inputShape.map (fun rows => rows.take 1),
   s_updated_inputShape.map (fun rows => (rows.drop 1).take padding_size_actives),
   s_updated_inputShape.map (fun rows => rows.drop (padding_size_actives + 1)))

/-- The activity-encoding append of `CrossAttentionModule.forward`
(lines 344-379): `torch.cat([t, c * torch.ones_like(t[:, :, :k])], dim=2)`.
Note the constant block is shaped like the slice `t[:, :, :k]`, whose width
clamps to the available feature width. -/
def appendActivity {α : Type} (c : α) (k : ℕ) (t : T3 α) : T3 α :=
  t.map (fun rows => rows.map (fun r => r ++ (r.take k).map (fun _ => c)))

/-- The key-padding mask built by `CrossAttentionModule.forward`
(lines 388-398): a `False` column for the query position concatenated with
the two support masks, row by row. -/
def buildPaddingMask (support_actives_mask support_inactives_mask : List (List Bool)) :
    List (List Bool) :=
  List.zipWith (fun a i => false :: (a ++ i)) support_actives_mask support_inactives_mask

/-- `CrossAttentionModule.forward` (modules.py lines 303-417).  The learned
`self.transformer` stack is external; it is passed as the parameter
`transformer`, receiving the `[S, B, E]`-transposed sequence and the
key-padding mask, exactly as
`self.transformer(s, src_key_padding_mask=padding_mask)` does. -/
def CrossAttentionModule_forward {α : Type} [Ring α]
    (activity_embedding_dim : ℕ)
    (transformer : T3 α → List (List Bool) → T3 α)
    (query_embedding support_actives_embedding support_inactives_embedding : T3 α)
    (support_actives_mask support_inactives_mask : List (List Bool)) :
    T3 α × T3 α × T3 α :=
  let embedding_dim := ((support_actives_embedding.headD []).headD []).length
  let q2 := appendActivity 0 activity_embedding_dim query_embedding
  let a2 := appendActivity 1 activity_embedding_dim support_actives_embedding
  let i2 := appendActivity (-1) activity_embedding_dim support_inactives_embedding
  let s := catDim1 q2 (catDim1 a2 i2)
  let padding_mask := buildPaddingMask support_actives_mask support_inactives_mask
  let st := transpose01 s
  let s_h := transformer st padding_mask
  let s_back := transpose01 st
  let s_h_back := transpose01 s_h
  let s_updated := addT3 s_back s_h_back
  let pa := (a2.headD []).length
  (s_updated.map (fun rows => (rows.take 1).map (fun r => r.take embedding_dim)),
   s_updated.map (fun rows =>
     ((rows.drop 1).take pa).map (fun r => r.take embedding_dim)),
   s_updated.map (fun rows =>
     (rows.drop (pa + 1)).map (fun r => r.take embedding_dim)))

/-- Sum, coordinate by coordinate (`width` coordinates), of the rows whose
mask entry is `false` — i.e. of the rows a torch `src_key_padding_mask`
leaves attendable (`True` in that mask means "ignore this key"). -/
def attendedRowSum {α : Type} [Ring α] (width : ℕ) (rows : List (List α))
    (maskRow : List Bool) : List α :=
  (List.range width).map
    (fun e => (List.zipWith (fun r mb => if mb then 0 else r.getD e 0) rows maskRow).sum)

/-- A minimal stand-in for the external self-attention stack, used to witness
mask behaviour: every output position of batch entry `b` is the sum of the
input rows of `b` that the key-padding mask leaves attendable.  It reads
exactly the rows an attention layer with key-padding masking may read (its
output is a function of the attendable rows only), in the `[S, B, E]` layout
the source hands to `self.transformer`. -/
def demoTransformer {α : Type} [Ring α] (width : ℕ) (st : T3 α)
    (m : List (List Bool)) : T3 α :=
  st.map (fun srow =>
    (List.range srow.length).map
      (fun b => attendedRowSum width (st.map (fun x => x.getD b [])) (m.getD b [])))

/-- `LayerNormalizingBlock.forward` (modules.py lines 224-260).  The three
`nn.LayerNorm` instances are external learned modules, passed as function
parameters; `usage` is `cfg.model.layerNormBlock.usage`; the inactive branch
is optional (`if support_inactives_embedding is not None`). -/
def LayerNormalizingBlock_forward
    (usage : Bool)
    (layernorm_query layernorm_support_actives layernorm_support_inactives :
      T3 ℚ → T3 ℚ)
    (query_embedding support_actives_embedding : T3 ℚ)
    (support_inactives_embedding : Option (T3 ℚ)) :
    T3 ℚ × T3 ℚ × Option (T3 ℚ) :=
  if usage then
    (layernorm_query query_embedding,
     layernorm_support_actives support_actives_embedding,
     match support_inactives_embedding with
     | some t => some (layernorm_support_inactives t)
     | none => none)
  else
    (query_embedding, support_actives_embedding, support_inactives_embedding)

/-! ## Encoder construction (modules.py lines 17-80) -/

/-- The activation functions of `activation_function_mapping` (line 18). -/
inductive ActFn : Type
  | relu
  | selu
  | sigmoid
deriving DecidableEq

/-- The regularization (dropout) variants of `dropout_mapping` (line 24):
`nn.Dropout` is ordinary randomized zeroing, `nn.AlphaDropout` the
variance-preserving variant for SELU. -/
inductive DropoutKind : Type
  | standard
  | alpha
deriving DecidableEq

/-- `activation_function_mapping` (line 18): a Python dict lookup; a missing
key raises `KeyError`, i.e. `none`. -/
def activation_function_mapping (name : String) : Option ActFn :=
  if name = "relu" then some ActFn.relu
  else if name = "selu" then some ActFn.selu
  else if name = "sigmoid" then some ActFn.sigmoid
  else none

/-- `dropout_mapping` (line 24): `{"relu": nn.Dropout, "selu": nn.AlphaDropout}`.
There is no entry for `"sigmoid"`. -/
def dropout_mapping (name : String) : Option DropoutKind :=
  if name = "relu" then some DropoutKind.standard
  else if name = "selu" then some DropoutKind.alpha
  else none

/-- Shape of an `nn.Linear(inFeatures, outFeatures)` layer. -/
structure LinearSpec : Type where
  inFeatures : ℕ
  outFeatures : ℕ
deriving DecidableEq

/-- The configuration fields `EncoderBlock.__init__` reads. -/
structure EncoderCfg : Type where
  activation : String
  input_dropout : ℚ
  dropout : ℚ
  input_dim : ℕ
  number_hidden_neurons : ℕ
  number_hidden_layers : ℕ
  associationSpace_dim : ℕ
deriving DecidableEq

/-- The layers assembled by a successful `EncoderBlock.__init__`. -/
structure EncoderParts : Type where
  inputDropout : DropoutKind × ℚ
  inputLinear : LinearSpec
  inputAct : ActFn
  hiddenDropouts : List (DropoutKind × ℚ)
  hiddenLinears : List LinearSpec
  hiddenActs : List ActFn
  outDropout : DropoutKind × ℚ
  outLinear : LinearSpec
  outAct : ActFn
deriving DecidableEq

/-- `EncoderBlock.__init__` (modules.py lines 35-76): the sequence of mapping
lookups and layer constructions.  A `KeyError` in either dict aborts
construction (`none`).  The loop over hidden layers repeats the same lookups
`number_hidden_layers` times with the same key, which the embedding renders
as `List.replicate`. -/
def EncoderBlock_init (cfg : EncoderCfg) : Option EncoderParts := do
  let d ← dropout_mapping cfg.activation
  let act ← activation_function_mapping cfg.activation
  let hd ← dropout_mapping cfg.activation
  let hact ← activation_function_mapping cfg.activation
  let dO ← dropout_mapping cfg.activation
  let actO ← activation_function_mapping cfg.activation
  pure
    { inputDropout := (d, cfg.input_dropout)
      inputLinear := ⟨cfg.input_dim, cfg.number_hidden_neurons⟩
      inputAct := act
      hiddenDropouts := List.replicate cfg.number_hidden_layers (hd, cfg.dropout)
      hiddenLinears := List.replicate cfg.number_hidden_layers
        ⟨cfg.number_hidden_neurons, cfg.number_hidden_neurons⟩
      hiddenActs := List.replicate cfg.number_hidden_layers hact
      outDropout := (dO, cfg.dropout)
      outLinear := ⟨cfg.number_hidden_neurons, cfg.associationSpace_dim⟩
      outAct := actO }

/-! ## SimilarityModule (modules.py lines 420-496), over `ℝ`. -/

/-- A rank-3 real tensor. -/
abbrev T3R := T3 ℝ

/-- The per-row divisor of the optional L2 normalization (lines 452-460):
the Euclidean norm `sqrt(sum(x^2))` of the row, with an exact zero replaced
by `1` (`div[div == 0] = 1`). -/
noncomputable def l2div (row : List ℝ) : ℝ :=
  let d := Real.sqrt ((row.map (fun x => x ^ 2)).sum)
  if d = 0 then 1 else d

/-- One embedding row after the optional L2 normalization. -/
noncomputable def l2normRow (row : List ℝ) : List ℝ :=
  row.map (fun x => x / l2div row)

/-- L2 normalization of a `[·, D]` block, row by row. -/
noncomputable def l2normalizeRows (t : List (List ℝ)) : List (List ℝ) :=
  t.map l2normRow

/-- L2 normalization of a whole `[B, ·, D]` tensor (lines 462-463). -/
noncomputable def l2normalize (t : T3R) : T3R :=
  t.map l2normalizeRows

/-- A row after the optional normalization step, per the `l2Norm` flag. -/
noncomputable def postRow (l2Norm : Bool) (row : List ℝ) : List ℝ :=
  if l2Norm then l2normRow row else row

/-- A `[·, D]` block after the optional normalization step. -/
noncomputable def postRows (l2Norm : Bool) (t : List (List ℝ)) : List (List ℝ) :=
  if l2Norm then l2normalizeRows t else t

/-- Dot product of two rows
(`query_embedding @ torch.transpose(support_set_embeddings, 1, 2)`,
one coefficient of the result). -/
def dotR (x y : List ℝ) : ℝ :=
  (List.zipWith (fun a b => a * b) x y).sum

/-- Lines 451-480 of `SimilarityModule`: optional L2 normalization, pairwise
dot-product similarities `[B, 1, P]`, multiplication by the float-cast
padding mask (broadcast over the query axis), and the sum over the support
axis, giving `[B, 1]`. -/
noncomputable def similaritySums (l2Norm : Bool)
    (query_embedding support_set_embeddings : T3R)
    (padding_mask : List (List Bool)) : List (List ℝ) :=
  let q := if l2Norm then l2normalize query_embedding else query_embedding
  let s := if l2Norm then l2normalize support_set_embeddings else support_set_embeddings
  let similarities : T3R :=
    List.zipWith (fun qb sb => qb.map (fun qrow => sb.map (fun srow => dotR qrow srow))) q s
  let mask : T3R :=
    padding_mask.map (fun mrow => [mrow.map (fun b => if b then (1 : ℝ) else 0)])
  let simsMasked :=
    List.zipWith (List.zipWith (List.zipWith (fun a b => a * b))) similarities mask
  simsMasked.map (fun b => b.map List.sum)

/-- The stabilizer `torch.tensor(1e-8)` of the scaling step. -/
noncomputable def stabilizer : ℝ := 1e-8

/-- `SimilarityModule` (modules.py lines 420-496).  After the masked
similarity sums, the two scaling policies are applied by two successive
`if cfg.model.similarityModule.scaling == ...` tests; a string matching
neither test leaves the sums untouched. -/
noncomputable def SimilarityModule (l2Norm : Bool) (scaling : String)
    (query_embedding support_set_embeddings : T3R)
    (padding_mask : List (List Bool)) (support_set_size : List ℝ) :
    List (List ℝ) :=
  let sums0 := similaritySums l2Norm query_embedding support_set_embeddings padding_mask
  let sums1 :=
    if scaling = "1/N" then
      List.zipWith (fun n row => row.map (fun x => 1 / (2 * n + stabilizer) * x))
        support_set_size sums0
    else sums0
  let sums2 :=
    if scaling = "1/sqrt(N)" then
      List.zipWith
        (fun n row => row.map (fun x => 1 / (2 * Real.sqrt n + stabilizer) * x))
        support_set_size sums1
    else sums1
  sums2

/-- The per-batch-entry content of `similaritySums`: sum, over the support
slots whose mask entry is `true` (real molecules), of the dot products with
the (possibly normalized) query row. -/
noncomputable def maskedDotSum (qrow : List ℝ) (srows : List (List ℝ))
    (mrow : List Bool) : ℝ :=
  (List.zipWith (fun srow mb => if mb then dotR qrow srow else 0) srows mrow).sum

/-- One batch entry of `similaritySums` computed in isolation. -/
noncomputable def simEntry (l2Norm : Bool) (qb sb : List (List ℝ)) (mb : List Bool) :
    List ℝ :=
  let qn := if l2Norm then l2normalizeRows qb else qb
  let sn := if l2Norm then l2normalizeRows sb else sb
  let sims := qn.map (fun qrow => sn.map (fun srow => dotR qrow srow))
  let masked := List.zipWith (List.zipWith (fun a b => a * b)) sims
    [mb.map (fun b => if b then (1 : ℝ) else 0)]
  masked.map List.sum

/-- Three-list `zipWith`. -/
def zip3With {α β γ δ : Type} (f : α → β → γ → δ) :
    List α → List β → List γ → List δ
  | a :: as, b :: bs, c :: cs => f a b c :: zip3With f as bs cs
  | _, _, _ => []

/-- The shape `[rows, cols]` of a rank-2 nested-list tensor. -/
def shape2 {α : Type} (t : List (List α)) : List ℕ :=
  [t.length, (t.headD []).length]

end MHNfs

/-! ## Theorems -/

namespace MHNfs

/-- C10: with the usage flag disabled, `LayerNormalizingBlock.forward` returns
its inputs unchanged, whatever the three layer-norm modules and inputs are —
including an absent inactive branch. -/
theorem c10_layernorm_disabled_identity
    (layernorm_query layernorm_support_actives layernorm_support_inactives :
      T3 ℚ → T3 ℚ)
    (query_embedding support_actives_embedding : T3 ℚ)
    (support_inactives_embedding : Option (T3 ℚ)) :
    LayerNormalizingBlock_forward false
      layernorm_query layernorm_support_actives layernorm_support_inactives
      query_embedding support_actives_embedding support_inactives_embedding =
      (query_embedding, support_actives_embedding, support_inactives_embedding) :=
  rfl

/-- C1 (code bug): evaluation of the key-padding mask the code builds, at
`support_actives_mask = [[true, false]]` (slot 1 a real molecule, slot 2
padding) and `support_inactives_mask = [[true]]` (real).  The query position
is `false` (attendable), but position 1 — whose input entry marks a *real*
molecule — gets mask value `true` (= masked for `src_key_padding_mask`),
while position 2 — marked *padding* by its input entry — gets `false`
(attendable).  The claim states the opposite correspondence. -/
theorem c1_builtMask_masks_real_not_padding :
    buildPaddingMask [[true, false]] [[true]] = [[false, true, false, true]] ∧
    ((buildPaddingMask [[true, false]] [[true]]).getD 0 []).getD 1 false = true ∧
    ((buildPaddingMask [[true, false]] [[true]]).getD 0 []).getD 2 true = false := by
  decide

/-- C2 (code bug): with one padded active slot (`support_actives_mask =
[[false]]`) and one real inactive slot (`support_inactives_mask = [[true]]`),
the key-padding mask the code builds is `[[false, false, true]]` — the padded
slot stays attendable and the real slot is masked.  Consequently a
transformer that reads exactly the attendable rows (here `demoTransformer`,
whose output is a function of the rows with mask entry `false` only) produces
different query outputs for two inputs that differ only in the content of the
padded active slot (`5` vs `7`). -/
theorem c2_padded_slot_content_leaks :
    buildPaddingMask [[false]] [[true]] = [[false, false, true]] ∧
    (CrossAttentionModule_forward 1 (demoTransformer 2)
        [[[(0 : ℤ)]]] [[[5]]] [[[9]]] [[false]] [[true]]).1 ≠
      (CrossAttentionModule_forward 1 (demoTransformer 2)
        [[[(0 : ℤ)]]] [[[7]]] [[[9]]] [[false]] [[true]]).1 := by
  decide

/-- C4 counterexample: constructing the encoder with the sigmoid activation
does not succeed — the very first step of `EncoderBlock.__init__`,
`dropout_mapping[cfg.model.encoder.activation]`, raises `KeyError` because
`dropout_mapping` has keys `"relu"` and `"selu"` only. -/
theorem c4_sigmoid_construction_fails :
    EncoderBlock_init ⟨"sigmoid", 1/10, 1/2, 2048, 1024, 1, 512⟩ = none ∧
    dropout_mapping "sigmoid" = none ∧
    activation_function_mapping "sigmoid" = some ActFn.sigmoid := by
  decide

/-- C9 counterexample: with embedding width `D = 1` and configured
`activity_embedding_dim = 2`, the appended activity block has width
`min 2 1 = 1`, not `2`: the row `[5]` becomes `[5, 0]` of length `2 ≠ 1 + 2`.
The constant block is shaped like the slice `t[:, :, :2]`, which clamps. -/
theorem c9_activity_width_clamps :
    ((appendActivity (0 : ℚ) 2 [[[5]]]).headD []).headD [] = [5, 0] ∧
    (((appendActivity (0 : ℚ) 2 [[[5]]]).headD []).headD []).length ≠ 1 + 2 := by

  decide

end MHNfs

namespace MHNfs

/-! ### Helper lemmas for the flatten/unflatten round trip (C5) -/

/-- Any member of a `zipWith` is the image of members of the two lists. -/
theorem exists_of_mem_zipWith {α β γ : Type} {f : α → β → γ} :
    ∀ {l₁ : List α} {l₂ : List β} {x : γ}, x ∈ List.zipWith f l₁ l₂ →
      ∃ a ∈ l₁, ∃ b ∈ l₂, x = f a b := by
  intro l₁
  induction l₁ with
  | nil => intro l₂ x hx; simp at hx
  | cons a t ih =>
    intro l₂ x hx
    cases l₂ with
    | nil => simp at hx
    | cons b t2 =>
      simp only [List.zipWith_cons_cons, List.mem_cons] at hx
      rcases hx with h | h
      · exact ⟨a, by simp, b, by simp, h⟩
      · rcases ih h with ⟨a1, ha1, b1, hb1, hx⟩
        exact ⟨a1, by simp [ha1], b1, by simp [hb1], hx⟩

/-- Chunking the flattened sequence of `S`-length rows back into rows of
`S` recovers the original list of rows. -/
theorem range_chunks_flatten {α : Type} (s : List (List α)) (S : ℕ)
    (h : ∀ r ∈ s, r.length = S) :
    (List.range s.length).map (fun b => ((s.flatten.drop (b * S)).take S)) = s := by
  induction s with
  | nil => rfl
  | cons r t ih =>
    have hr : r.length = S := h r (by simp)
    have ht : ∀ x ∈ t, x.length = S := fun x hx => h x (by simp [hx])
    rw [List.length_cons, List.range_succ_eq_map, List.map_cons, List.map_map]
    have head_eq : ((r :: t).flatten.drop (0 * S)).take S = r := by
      simp only [List.flatten_cons, Nat.zero_mul, List.drop_zero]
      exact List.take_left' hr
    have tail_fun :
        ((fun b => (((r :: t).flatten.drop (b * S)).take S)) ∘ Nat.succ) =
          fun b => ((t.flatten.drop (b * S)).take S) := by
      funext b
      simp only [Function.comp_apply, List.flatten_cons, Nat.succ_mul]
      rw [Nat.add_comm, ← List.drop_drop, List.drop_left' hr]
    rw [head_eq, tail_fun, ih ht]

/-- The reshape pair of `ContextModule.forward` is an exact inverse:
`reshape(B, S, D)` after `reshape(1, B*S, D)` is the identity on a tensor
with `B` batch entries of `S` rows each. -/
theorem unflatten_flattenBatch {α : Type} (s : T3 α) (S : ℕ)
    (h : ∀ r ∈ s, r.length = S) :
    unflattenBatch s.length S (flattenBatch s) = s := by
  have : unflattenBatch s.length S (flattenBatch s) =
      (List.range s.length).map (fun b => ((s.flatten.drop (b * S)).take S)) := by
    simp [unflattenBatch, flattenBatch]
  rw [this, range_chunks_flatten s S h]

/-- Adding an all-zeros row elementwise is the identity. -/
theorem zipWith_add_zero_row {α : Type} [AddZeroClass α] (r : List α) :
    List.zipWith (fun a b => a + b) r (r.map (fun _ => (0 : α))) = r := by
  induction r with
  | nil => rfl
  | cons a t ih => simp only [List.map_cons, List.zipWith_cons_cons, add_zero, ih]

/-- Adding an all-zeros block elementwise is the identity. -/
theorem zipWith_add_zero_block {α : Type} [AddZeroClass α] (m : List (List α)) :
    List.zipWith (List.zipWith (fun a b => a + b)) m
      (m.map (fun r => r.map (fun _ => (0 : α)))) = m := by
  induction m with
  | nil => rfl
  | cons r t ih =>
    simp only [List.map_cons, List.zipWith_cons_cons, zipWith_add_zero_row, ih]

/-- Adding `zerosLike t` to `t` is the identity (the residual of a zero
retrieval). -/
theorem addT3_zerosLike {α : Type} [AddZeroClass α] (t : T3 α) :
    addT3 t (zerosLike t) = t := by
  induction t with
  | nil => rfl
  | cons b bs ih =>
    simp only [addT3, zerosLike, List.map_cons, List.zipWith_cons_cons] at *
    rw [zipWith_add_zero_block, ih]

/-- Taking the first row of each `[query; rest]` concatenation recovers the
query block. -/
theorem cat_take_one {α : Type} (q x : T3 α)
    (hq : ∀ r ∈ q, r.length = 1) (hl : q.length = x.length) :
    (catDim1 q x).map (fun rows => rows.take 1) = q := by
  induction q generalizing x with
  | nil => cases x with
    | nil => rfl
    | cons y ys => exact absurd hl (by simp)
  | cons qr qt ih =>
    cases x with
    | nil => exact absurd hl (by simp)
    | cons y ys =>
      simp only [catDim1, List.zipWith_cons_cons, List.map_cons]
      rw [List.take_left' (hq qr (by simp))]
      have h2 := ih ys (fun r hr => hq r (by simp [hr])) (by simpa using hl)
      simp only [catDim1] at h2
      rw [h2]

/-- Dropping the query row and taking `Pa` rows of each
`[query; actives; inactives]` concatenation recovers the actives block. -/
theorem cat_drop_take_actives {α : Type} (q a i : T3 α) (Pa : ℕ)
    (hq : ∀ r ∈ q, r.length = 1) (ha : ∀ r ∈ a, r.length = Pa)
    (hqa : q.length = a.length) (hai : a.length = i.length) :
    (catDim1 q (catDim1 a i)).map (fun rows => (rows.drop 1).take Pa) = a := by
  induction q generalizing a i with
  | nil =>
    cases a with
    | nil => cases i with
      | nil => rfl
      | cons _ _ => exact absurd hai (by simp)
    | cons _ _ => exact absurd hqa (by simp)
  | cons qr qt ih =>
    cases a with
    | nil => exact absurd hqa (by simp)
    | cons ar at2 =>
      cases i with
      | nil => exact absurd hai (by simp)
      | cons ir it =>
        simp only [catDim1, List.zipWith_cons_cons, List.map_cons]
        rw [List.drop_left' (hq qr (by simp)), List.take_left' (ha ar (by simp))]
        have := ih at2 it (fun r hr => hq r (by simp [hr]))
          (fun r hr => ha r (by simp [hr])) (by simpa using hqa) (by simpa using hai)
        simp only [catDim1] at this
        rw [this]

/-- Dropping the first `Pa + 1` rows of each `[query; actives; inactives]`
concatenation recovers the inactives block. -/
theorem cat_drop_inactives {α : Type} (q a i : T3 α) (Pa : ℕ)
    (hq : ∀ r ∈ q, r.length = 1) (ha : ∀ r ∈ a, r.length = Pa)
    (hqa : q.length = a.length) (hai : a.length = i.length) :
    (catDim1 q (catDim1 a i)).map (fun rows => rows.drop (Pa + 1)) = i := by
  induction q generalizing a i with
  | nil =>
    cases a with
    | nil => cases i with
      | nil => rfl
      | cons _ _ => exact absurd hai (by simp)
    | cons _ _ => exact absurd hqa (by simp)
  | cons qr qt ih =>
    cases a with
    | nil => exact absurd hqa (by simp)
    | cons ar at2 =>
      cases i with
      | nil => exact absurd hai (by simp)
      | cons ir it =>
        simp only [catDim1, List.zipWith_cons_cons, List.map_cons]
        have h1 : (qr ++ (ar ++ ir)).drop (Pa + 1) = ir := by
          rw [Nat.add_comm Pa 1, ← List.drop_drop, List.drop_left' (hq qr (by simp)),
            List.drop_left' (ha ar (by simp))]
        rw [h1]
        have := ih at2 it (fun r hr => hq r (by simp [hr]))
          (fun r hr => ha r (by simp [hr])) (by simpa using hqa) (by simpa using hai)
        simp only [catDim1] at this
        rw [this]

end MHNfs

namespace MHNfs

/-- C5: in `ContextModule.forward`, flattening the concatenated
`[query; actives; inactives]` tensor to `[1, B*(1+P_a+P_i), D]` and
unflattening it back is an exact inverse of the concatenation, and splitting
the reconstructed sequence at offsets `1` and `1+P_a` reproduces the three
inputs exactly (shape and position): with the retrieval residual fixed at
zero so that only the layout transform acts, the forward call returns
precisely its three input tensors. -/
theorem c5_context_flatten_roundtrip {α : Type} [AddZeroClass α]
    (q a i c : T3 α) (B Pa Pi : ℕ)
    (hqB : q.length = B) (haB : a.length = B) (hiB : i.length = B)
    (hq1 : ∀ r ∈ q, r.length = 1)
    (haP : ∀ r ∈ a, r.length = Pa)
    (hiP : ∀ r ∈ i, r.length = Pi) :
    unflattenBatch B (1 + (Pa + Pi)) (flattenBatch (catDim1 q (catDim1 a i))) =
      catDim1 q (catDim1 a i) ∧
    ContextModule_forward (fun _ s_flattend => zerosLike s_flattend) q a i c =
      (q, a, i) := by
  subst hqB
  have hrows : ∀ r ∈ catDim1 q (catDim1 a i), r.length = 1 + (Pa + Pi) := by
    intro r hr
    obtain ⟨qr, hqr, rest, hrest, rfl⟩ := exists_of_mem_zipWith hr
    obtain ⟨ar, har, ir, hir, rfl⟩ := exists_of_mem_zipWith hrest
    simp [hq1 qr hqr, haP ar har, hiP ir hir]
  have hlen : (catDim1 q (catDim1 a i)).length = q.length := by
    simp [catDim1, List.length_zipWith, haB, hiB]
  by_cases hB : q = []
  · have ha0 : a = [] := List.length_eq_zero.mp (by rw [haB, hB]; rfl)
    have hi0 : i = [] := List.length_eq_zero.mp (by rw [hiB, hB]; rfl)
    subst hB ha0 hi0
    exact ⟨rfl, rfl⟩
  · have hsne : catDim1 q (catDim1 a i) ≠ [] := by
      intro h
      apply hB
      apply List.length_eq_zero.mp
      rw [← hlen, h]
      rfl
    obtain ⟨r0, srest, hcs⟩ := List.exists_cons_of_ne_nil hsne
    have hh0 : ((catDim1 q (catDim1 a i)).headD []).length = 1 + (Pa + Pi) := by
      rw [hcs]
      simp only [List.headD_cons]
      exact hrows r0 (by rw [hcs]; simp)
    have hhead : ∀ r ∈ catDim1 q (catDim1 a i),
        r.length = ((catDim1 q (catDim1 a i)).headD []).length := by
      intro r hr
      rw [hh0]
      exact hrows r hr
    have hane : a ≠ [] := by
      intro h
      apply hB
      apply List.length_eq_zero.mp
      rw [← haB, h]
      rfl
    obtain ⟨ar, atl, rfl⟩ : ∃ x xs, a = x :: xs := by
      cases a with
      | nil => exact absurd rfl hane
      | cons x xs => exact ⟨x, xs, rfl⟩
    have hPa : ((ar :: atl).headD []).length = Pa := by
      simp only [List.headD_cons]
      exact haP ar (by simp)
    have hmain : unflattenBatch (catDim1 q (catDim1 (ar :: atl) i)).length
        (((catDim1 q (catDim1 (ar :: atl) i)).headD []).length)
        (addT3 (flattenBatch (catDim1 q (catDim1 (ar :: atl) i)))
          (zerosLike (flattenBatch (catDim1 q (catDim1 (ar :: atl) i))))) =
        catDim1 q (catDim1 (ar :: atl) i) := by
      rw [addT3_zerosLike]
      exact unflatten_flattenBatch _ _ hhead
    constructor
    · rw [← hlen, ← hh0]
      exact unflatten_flattenBatch _ _ hhead
    · simp only [ContextModule_forward]
      rw [hmain, hPa]
      simp only [Prod.mk.injEq]
      refine ⟨?_, ?_, ?_⟩
      · exact cat_take_one q (catDim1 (ar :: atl) i) hq1
          (by simp [catDim1, List.length_zipWith, haB, hiB])
      · exact cat_drop_take_actives q (ar :: atl) i Pa hq1 haP
          (by rw [haB]) (by rw [haB, hiB])
      · exact cat_drop_inactives q (ar :: atl) i Pa hq1 haP
          (by rw [haB]) (by rw [haB, hiB])

/-- Witness for C5 at a concrete input (`B = 1`, `P_a = 1`, `P_i = 1`,
`D = 1`, integer-valued embeddings). -/
theorem c5_context_flatten_roundtrip_witness :
    unflattenBatch 1 (1 + (1 + 1))
        (flattenBatch (catDim1 [[[(1 : ℤ)]]] (catDim1 [[[2]]] [[[3]]]))) =
      catDim1 [[[(1 : ℤ)]]] (catDim1 [[[2]]] [[[3]]]) ∧
    ContextModule_forward (fun _ s_flattend => zerosLike s_flattend)
        [[[(1 : ℤ)]]] [[[2]]] [[[3]]] [[[4]]] = ([[[1]]], [[[2]]], [[[3]]]) :=
  c5_context_flatten_roundtrip [[[(1 : ℤ)]]] [[[2]]] [[[3]]] [[[4]]] 1 1 1
    (by decide) (by decide) (by decide) (by decide) (by decide) (by decide)

end MHNfs

namespace MHNfs

/-- The activity-encoding append always appends `min k D` copies of the
constant to a row of width `D`: the constant block is shaped like the
clamping slice `t[:, :, :k]`. -/
theorem appendActivity_eq_replicate {α : Type} (c : α) (k D : ℕ) (t : T3 α)
    (h : ∀ b ∈ t, ∀ r ∈ b, r.length = D) :
    appendActivity c k t =
      t.map (fun b => b.map (fun r => r ++ List.replicate (min k D) c)) := by
  unfold appendActivity
  refine List.map_congr_left ?_
  intro b hb
  refine List.map_congr_left ?_
  intro r hr
  rw [List.map_const', List.length_take, h b hb r hr]

/-- C9 (amended): for embeddings of feature width `D`, the appended
activity-encoding blocks are all-zeros (query), all-ones (actives) and
all-minus-ones (inactives) of width `min activity_width D` — the constant
block inherits the width of the clamping slice `t[:, :, :k]`, so the feature
width becomes `D + min activity_width D`, which is `D + activity_width`
exactly when `activity_width ≤ D`. -/
theorem c9_activity_encoding_blocks {α : Type} [Ring α] (k D : ℕ) (q a i : T3 α)
    (hq : ∀ b ∈ q, ∀ r ∈ b, r.length = D)
    (ha : ∀ b ∈ a, ∀ r ∈ b, r.length = D)
    (hi : ∀ b ∈ i, ∀ r ∈ b, r.length = D) :
    appendActivity 0 k q =
      q.map (fun b => b.map (fun r => r ++ List.replicate (min k D) (0 : α))) ∧
    appendActivity 1 k a =
      a.map (fun b => b.map (fun r => r ++ List.replicate (min k D) (1 : α))) ∧
    appendActivity (-1) k i =
      i.map (fun b => b.map (fun r => r ++ List.replicate (min k D) (-1 : α))) :=
  ⟨appendActivity_eq_replicate 0 k D q hq,
   appendActivity_eq_replicate 1 k D a ha,
   appendActivity_eq_replicate (-1) k D i hi⟩

/-- Witness for C9 at `k = 1`, `D = 1` over integer-valued embeddings. -/
theorem c9_activity_encoding_blocks_witness :
    appendActivity (0 : ℤ) 1 [[[2]]] = [[[2, 0]]] ∧
    appendActivity (1 : ℤ) 1 [[[3]]] = [[[3, 1]]] ∧
    appendActivity (-1 : ℤ) 1 [[[4]]] = [[[4, -1]]] := by
  have h := c9_activity_encoding_blocks 1 1 ([[[2]]] : T3 ℤ) [[[3]]] [[[4]]]
    (by decide) (by decide) (by decide)
  simpa using h

/-- C4 (amended): the activation mapping does contain sigmoid, but the
regularization mapping does not, so `EncoderBlock.__init__` with the sigmoid
activation fails fatally at its first lookup
(`dropout_mapping[cfg.model.encoder.activation]`); ordinary randomized
zeroing (`nn.Dropout`) is the regularization for the rectified-linear
activation, whose construction succeeds with standard dropout at every
layer. -/
theorem c4_sigmoid_fails_relu_standard (cfg cfg2 : EncoderCfg)
    (h : cfg.activation = "sigmoid") (h2 : cfg2.activation = "relu") :
    activation_function_mapping cfg.activation = some ActFn.sigmoid ∧
    dropout_mapping cfg.activation = none ∧
    EncoderBlock_init cfg = none ∧
    ∃ p : EncoderParts, EncoderBlock_init cfg2 = some p ∧
      p.inputDropout.1 = DropoutKind.standard ∧
      p.outDropout.1 = DropoutKind.standard ∧
      ∀ d ∈ p.hiddenDropouts, d.1 = DropoutKind.standard := by
  refine ⟨by simp [activation_function_mapping, h], by simp [dropout_mapping, h],
    by simp [EncoderBlock_init, dropout_mapping, h], ?_⟩
  refine ⟨⟨(DropoutKind.standard, cfg2.input_dropout),
    ⟨cfg2.input_dim, cfg2.number_hidden_neurons⟩, ActFn.relu,
    List.replicate cfg2.number_hidden_layers (DropoutKind.standard, cfg2.dropout),
    List.replicate cfg2.number_hidden_layers
      ⟨cfg2.number_hidden_neurons, cfg2.number_hidden_neurons⟩,
    List.replicate cfg2.number_hidden_layers ActFn.relu,
    (DropoutKind.standard, cfg2.dropout),
    ⟨cfg2.number_hidden_neurons, cfg2.associationSpace_dim⟩, ActFn.relu⟩,
    ?_, rfl, rfl, ?_⟩
  · simp [EncoderBlock_init, dropout_mapping, activation_function_mapping, h2]
  · intro d hd
    rw [List.eq_of_mem_replicate hd]

/-- Witness for C4's amended statement at concrete configurations. -/
theorem c4_sigmoid_fails_relu_standard_witness :
    activation_function_mapping
        (EncoderCfg.activation ⟨"sigmoid", 1/10, 1/2, 2048, 1024, 1, 512⟩) =
      some ActFn.sigmoid ∧
    dropout_mapping
        (EncoderCfg.activation ⟨"sigmoid", 1/10, 1/2, 2048, 1024, 1, 512⟩) = none ∧
    EncoderBlock_init ⟨"sigmoid", 1/10, 1/2, 2048, 1024, 1, 512⟩ = none ∧
    ∃ p : EncoderParts,
      EncoderBlock_init ⟨"relu", 1/10, 1/2, 2048, 1024, 1, 512⟩ = some p ∧
      p.inputDropout.1 = DropoutKind.standard ∧
      p.outDropout.1 = DropoutKind.standard ∧
      ∀ d ∈ p.hiddenDropouts, d.1 = DropoutKind.standard :=
  c4_sigmoid_fails_relu_standard
    ⟨"sigmoid", 1/10, 1/2, 2048, 1024, 1, 512⟩
    ⟨"relu", 1/10, 1/2, 2048, 1024, 1, 512⟩ rfl rfl

/-- C3 counterexample: calling the similarity scorer with the scaling string
`"unknown-scaling"` (outside the two supported policies) does not fail — it
returns the unscaled similarity sum.  Here the query row `[3]` and support
row `[2]` give the dot product `6`, and the output is `[[6]]`. -/
theorem c3_unknown_scaling_returns_result :
    SimilarityModule false "unknown-scaling" [[[3]]] [[[2]]] [[true]] [(1 : ℝ)] =
      [[(6 : ℝ)]] := by
  norm_num [SimilarityModule, similaritySums, dotR]
  rw [if_neg (by decide : ¬("unknown-scaling" : String) = "1/sqrt(N)"),
    if_neg (by decide : ¬("unknown-scaling" : String) = "1/N")]

/-- C3 (amended): an unknown activation name is a fatal lookup failure at
encoder construction (both mapping lookups miss), but an unknown
similarity-scaling string is not: both scaling branches of the similarity
scorer are skipped and the unscaled masked similarity sums are returned. -/
theorem c3_unknown_lookup_behaviour (name : String) (cfg : EncoderCfg)
    (pol : String) (l2Norm : Bool) (q s : T3R) (mask : List (List Bool))
    (sizes : List ℝ)
    (hr : name ≠ "relu") (hs : name ≠ "selu") (hg : name ≠ "sigmoid")
    (hc : cfg.activation = name)
    (h1 : pol ≠ "1/N") (h2 : pol ≠ "1/sqrt(N)") :
    activation_function_mapping name = none ∧
    dropout_mapping name = none ∧
    EncoderBlock_init cfg = none ∧
    SimilarityModule l2Norm pol q s mask sizes = similaritySums l2Norm q s mask := by
  have hdrop : dropout_mapping name = none := by simp [dropout_mapping, hr, hs]
  refine ⟨by simp [activation_function_mapping, hr, hs, hg], hdrop, ?_, ?_⟩
  · simp [EncoderBlock_init, hc, hdrop]
  · simp [SimilarityModule, h1, h2]

/-- Witness for C3's amended statement at concrete inputs. -/
theorem c3_unknown_lookup_behaviour_witness :
    activation_function_mapping "gelu" = none ∧
    dropout_mapping "gelu" = none ∧
    EncoderBlock_init ⟨"gelu", 1/10, 1/2, 2048, 1024, 1, 512⟩ = none ∧
    SimilarityModule false "max-scaling" [[[1]]] [[[1]]] [[true]] [(1 : ℝ)] =
      similaritySums false [[[1]]] [[[1]]] [[true]] :=
  c3_unknown_lookup_behaviour "gelu" ⟨"gelu", 1/10, 1/2, 2048, 1024, 1, 512⟩
    "max-scaling" false [[[1]]] [[[1]]] [[true]] [(1 : ℝ)]
    (by decide) (by decide) (by decide) rfl (by decide) (by decide)

end MHNfs

namespace MHNfs

/-! ### Helper lemmas for the similarity scorer (C6, C7, C8) -/

/-- `similaritySums` on cons-inputs computes head and tail independently. -/
theorem similaritySums_cons (l2 : Bool) (qb sb : List (List ℝ)) (mb : List Bool)
    (q s : T3R) (m : List (List Bool)) :
    similaritySums l2 (qb :: q) (sb :: s) (mb :: m) =
      simEntry l2 qb sb mb :: similaritySums l2 q s m := by
  cases l2 <;> simp [similaritySums, simEntry, l2normalize]

/-- `similaritySums` is the three-way zip of the per-entry computation. -/
theorem similaritySums_eq_zip3 (l2 : Bool) :
    ∀ (q s : T3R) (m : List (List Bool)),
      similaritySums l2 q s m = zip3With (simEntry l2) q s m := by
  intro q
  induction q with
  | nil => intro s m; cases l2 <;> simp [similaritySums, zip3With, l2normalize]
  | cons qb qt ih =>
    intro s m
    cases s with
    | nil => cases l2 <;> simp [similaritySums, zip3With, l2normalize]
    | cons sb st =>
      cases m with
      | nil => cases l2 <;> simp [similaritySums, zip3With, l2normalize]
      | cons mb mt =>
        rw [similaritySums_cons, ih]
        rfl

/-- Length of a three-way zip. -/
theorem zip3With_length {α β γ δ : Type} (f : α → β → γ → δ) :
    ∀ (as : List α) (bs : List β) (cs : List γ),
      (zip3With f as bs cs).length = min as.length (min bs.length cs.length) := by
  intro as
  induction as with
  | nil => intro bs cs; simp [zip3With]
  | cons a t ih =>
    intro bs cs
    cases bs with
    | nil => simp [zip3With]
    | cons b bt =>
      cases cs with
      | nil => simp [zip3With]
      | cons c ct =>
        simp only [zip3With, List.length_cons, ih]
        omega

/-- Entry `n` of a three-way zip, when `n` is in range everywhere. -/
theorem zip3With_getD {α β γ δ : Type} (f : α → β → γ → δ)
    (dA : α) (dB : β) (dC : γ) (dD : δ) :
    ∀ (as : List α) (bs : List β) (cs : List γ) (n : ℕ),
      n < as.length → n < bs.length → n < cs.length →
      (zip3With f as bs cs).getD n dD =
        f (as.getD n dA) (bs.getD n dB) (cs.getD n dC) := by
  intro as
  induction as with
  | nil => intro bs cs n h1 h2 h3; simp at h1
  | cons a t ih =>
    intro bs cs n h1 h2 h3
    cases bs with
    | nil => simp at h2
    | cons b bt =>
      cases cs with
      | nil => simp at h3
      | cons c ct =>
        cases n with
        | zero => rfl
        | succ n =>
          simp only [zip3With, List.getD_cons_succ]
          exact ih bt ct n (by simpa using h1) (by simpa using h2) (by simpa using h3)

/-- Entry `n` of a two-way zip, when `n` is in range on both sides. -/
theorem zipWith_getD {α β γ : Type} (f : α → β → γ) (dA : α) (dB : β) (dC : γ) :
    ∀ (as : List α) (bs : List β) (n : ℕ), n < as.length → n < bs.length →
      (List.zipWith f as bs).getD n dC = f (as.getD n dA) (bs.getD n dB) := by
  intro as
  induction as with
  | nil => intro bs n h1 h2; simp at h1
  | cons a t ih =>
    intro bs n h1 h2
    cases bs with
    | nil => simp at h2
    | cons b bt =>
      cases n with
      | zero => rfl
      | succ n =>
        simp only [List.zipWith_cons_cons, List.getD_cons_succ]
        exact ih bt n (by simpa using h1) (by simpa using h2)

/-- Any member of a three-way zip is the image of members of the three
lists. -/
theorem exists_of_mem_zip3With {α β γ δ : Type} {f : α → β → γ → δ} :
    ∀ {as : List α} {bs : List β} {cs : List γ} {x : δ},
      x ∈ zip3With f as bs cs →
      ∃ a ∈ as, ∃ b ∈ bs, ∃ c ∈ cs, x = f a b c := by
  intro as
  induction as with
  | nil => intro bs cs x hx; simp [zip3With] at hx
  | cons a t ih =>
    intro bs cs x hx
    cases bs with
    | nil => simp [zip3With] at hx
    | cons b bt =>
      cases cs with
      | nil => simp [zip3With] at hx
      | cons c ct =>
        simp only [zip3With, List.mem_cons] at hx
        rcases hx with h | h
        · exact ⟨a, by simp, b, by simp, c, by simp, h⟩
        · rcases ih h with ⟨a1, ha1, b1, hb1, c1, hc1, hx⟩
          exact ⟨a1, by simp [ha1], b1, by simp [hb1], c1, by simp [hc1], hx⟩

/-- Multiplying values by the float-cast mask and summing equals summing the
values at `true` positions: `v * 1 = v` at real slots, `v * 0 = 0` at padded
slots. -/
theorem masked_mul_sum (v : List ℝ → ℝ) (sb : List (List ℝ)) (mb : List Bool) :
    (List.zipWith (fun a b => a * b) (sb.map v)
      (mb.map (fun c => if c then (1 : ℝ) else 0))).sum =
    (List.zipWith (fun srow c => if c then v srow else 0) sb mb).sum := by
  induction sb generalizing mb with
  | nil => simp
  | cons srow st ih =>
    cases mb with
    | nil => simp
    | cons c ct =>
      simp only [List.map_cons, List.zipWith_cons_cons, List.sum_cons, ih]
      congr 1
      cases c <;> simp

/-- The per-entry similarity computation for a single-row query block is the
masked dot-product sum of the (possibly normalized) embeddings. -/
theorem simEntry_eq (l2 : Bool) (qrow : List ℝ) (sb : List (List ℝ))
    (mb : List Bool) :
    simEntry l2 [qrow] sb mb =
      [maskedDotSum (postRow l2 qrow) (postRows l2 sb) mb] := by
  have hq : (if l2 = true then l2normalizeRows [qrow] else [qrow]) =
      [postRow l2 qrow] := by
    cases l2 <;> simp [postRow, l2normalizeRows]
  have hsn : (if l2 = true then l2normalizeRows sb else sb) = postRows l2 sb := by
    cases l2 <;> simp [postRows]
  simp only [simEntry, hq, hsn, List.map_cons, List.map_nil,
    List.zipWith_cons_cons, List.zipWith_nil_right, List.sum_cons]
  congr 1
  unfold maskedDotSum
  exact masked_mul_sum _ _ _

/-- The per-entry similarity result has one scalar per query row. -/
theorem simEntry_length (l2 : Bool) (qb sb : List (List ℝ)) (mb : List Bool) :
    (simEntry l2 qb sb mb).length = min qb.length 1 := by
  cases l2 <;>
    simp [simEntry, l2normalizeRows, List.length_zipWith]

/-- A masked dot-product sum over an all-padding mask is exactly zero. -/
theorem maskedDotSum_all_false (qrow : List ℝ) (sb : List (List ℝ))
    (mb : List Bool) (h : ∀ x ∈ mb, x = false) :
    maskedDotSum qrow sb mb = 0 := by
  unfold maskedDotSum
  induction sb generalizing mb with
  | nil => simp
  | cons srow st ih =>
    cases mb with
    | nil => simp
    | cons c ct =>
      have hc : c = false := h c (by simp)
      subst hc
      simp only [List.zipWith_cons_cons, List.sum_cons]
      rw [ih ct (fun x hx => h x (by simp [hx]))]
      simp

/-- `SimilarityModule` under the `"1/N"` policy: scale the similarity sums
entrywise by `1 / (2 * N + stabilizer)`. -/
theorem SimilarityModule_scaling_1N (l2Norm : Bool) (q s : T3R)
    (mask : List (List Bool)) (sizes : List ℝ) :
    SimilarityModule l2Norm "1/N" q s mask sizes =
      List.zipWith (fun n row => row.map (fun x => 1 / (2 * n + stabilizer) * x))
        sizes (similaritySums l2Norm q s mask) := by
  simp only [SimilarityModule]
  rw [if_neg (by decide : ¬("1/N" : String) = "1/sqrt(N)")]
  simp

/-- `SimilarityModule` under the `"1/sqrt(N)"` policy: scale the similarity
sums entrywise by `1 / (2 * sqrt N + stabilizer)`. -/
theorem SimilarityModule_scaling_sqrtN (l2Norm : Bool) (q s : T3R)
    (mask : List (List Bool)) (sizes : List ℝ) :
    SimilarityModule l2Norm "1/sqrt(N)" q s mask sizes =
      List.zipWith
        (fun n row => row.map (fun x => 1 / (2 * Real.sqrt n + stabilizer) * x))
        sizes (similaritySums l2Norm q s mask) := by
  simp only [SimilarityModule]
  rw [if_neg (by decide : ¬("1/sqrt(N)" : String) = "1/N")]
  simp

/-- `SimilarityModule` under any other scaling string: both scaling branches
are skipped and the unscaled sums are returned. -/
theorem SimilarityModule_scaling_other (l2Norm : Bool) (pol : String)
    (q s : T3R) (mask : List (List Bool)) (sizes : List ℝ)
    (h1 : pol ≠ "1/N") (h2 : pol ≠ "1/sqrt(N)") :
    SimilarityModule l2Norm pol q s mask sizes =
      similaritySums l2Norm q s mask := by
  simp [SimilarityModule, h1, h2]

end MHNfs

namespace MHNfs

/-- C6: for every batch entry `b`, the similarity scorer's output equals the
sum of dot-product similarities at unmasked (real) support slots multiplied
by `1 / (2N + ε)` under the `"1/N"` policy and by `1 / (2·sqrt N + ε)` under
the `"1/sqrt(N)"` policy, where `N` is that entry's support-set-size input;
and when `N = 0` with an all-padding mask, the output is exactly `0`. -/
theorem c6_similarity_scaling_formula (l2Norm : Bool) (q s : T3R)
    (mask : List (List Bool)) (sizes : List ℝ) (b : ℕ)
    (hbq : b < q.length) (hbs : b < s.length) (hbm : b < mask.length)
    (hbn : b < sizes.length) (hq1 : (q.getD b []).length = 1) :
    (SimilarityModule l2Norm "1/N" q s mask sizes).getD b [] =
      [1 / (2 * sizes.getD b 0 + stabilizer) *
        maskedDotSum (postRow l2Norm ((q.getD b []).getD 0 []))
          (postRows l2Norm (s.getD b [])) (mask.getD b [])] ∧
    (SimilarityModule l2Norm "1/sqrt(N)" q s mask sizes).getD b [] =
      [1 / (2 * Real.sqrt (sizes.getD b 0) + stabilizer) *
        maskedDotSum (postRow l2Norm ((q.getD b []).getD 0 []))
          (postRows l2Norm (s.getD b [])) (mask.getD b [])] ∧
    ((sizes.getD b 0 = 0 ∧ ∀ x ∈ mask.getD b [], x = false) →
      (SimilarityModule l2Norm "1/N" q s mask sizes).getD b [] = [0] ∧
      (SimilarityModule l2Norm "1/sqrt(N)" q s mask sizes).getD b [] = [0]) := by
  obtain ⟨qrow, hqrow⟩ := List.length_eq_one.mp hq1
  have hsums : (similaritySums l2Norm q s mask).getD b [] =
      [maskedDotSum (postRow l2Norm ((q.getD b []).getD 0 []))
        (postRows l2Norm (s.getD b [])) (mask.getD b [])] := by
    rw [similaritySums_eq_zip3,
      zip3With_getD (simEntry l2Norm) [] [] [] [] q s mask b hbq hbs hbm, hqrow,
      simEntry_eq]
    simp
  have hlen : b < (similaritySums l2Norm q s mask).length := by
    rw [similaritySums_eq_zip3, zip3With_length]
    exact lt_min hbq (lt_min hbs hbm)
  have g1 : (SimilarityModule l2Norm "1/N" q s mask sizes).getD b [] =
      [1 / (2 * sizes.getD b 0 + stabilizer) *
        maskedDotSum (postRow l2Norm ((q.getD b []).getD 0 []))
          (postRows l2Norm (s.getD b [])) (mask.getD b [])] := by
    rw [SimilarityModule_scaling_1N,
      zipWith_getD _ 0 [] [] sizes (similaritySums l2Norm q s mask) b hbn hlen,
      hsums]
    simp
  have g2 : (SimilarityModule l2Norm "1/sqrt(N)" q s mask sizes).getD b [] =
      [1 / (2 * Real.sqrt (sizes.getD b 0) + stabilizer) *
        maskedDotSum (postRow l2Norm ((q.getD b []).getD 0 []))
          (postRows l2Norm (s.getD b [])) (mask.getD b [])] := by
    rw [SimilarityModule_scaling_sqrtN,
      zipWith_getD _ 0 [] [] sizes (similaritySums l2Norm q s mask) b hbn hlen,
      hsums]
    simp
  refine ⟨g1, g2, ?_⟩
  rintro ⟨hz, hmf⟩
  have hM : maskedDotSum (postRow l2Norm ((q.getD b []).getD 0 []))
      (postRows l2Norm (s.getD b [])) (mask.getD b []) = 0 :=
    maskedDotSum_all_false _ _ _ hmf
  constructor
  · rw [g1, hM]
    simp
  · rw [g2, hM]
    simp

/-- Witness for C6 at a degenerate support set (`N = 0`, all-padding mask):
both policies return exactly `[0]`. -/
theorem c6_similarity_scaling_formula_witness :
    (SimilarityModule false "1/N" [[[1]]] [[[2]]] [[false]] [(0 : ℝ)]).getD 0 [] =
      [0] ∧
    (SimilarityModule false "1/sqrt(N)" [[[1]]] [[[2]]] [[false]]
      [(0 : ℝ)]).getD 0 [] = [0] :=
  (c6_similarity_scaling_formula false [[[1]]] [[[2]]] [[false]] [(0 : ℝ)] 0
    (by decide) (by decide) (by decide) (by decide) (by decide)).2.2
    ⟨rfl, by decide⟩

/-- C7 counterexample: the similarity scorer's output at `B = 1` is a rank-2
`[1, 1]` tensor (`similarities.sum(dim=2)` removes only the support axis,
keeping the query axis of width 1), not the rank-1 `[1]` shape the claim
asserts. -/
theorem c7_output_rank_two :
    shape2 (SimilarityModule false "1/N" [[[1]]] [[[1]]] [[true]] [(1 : ℝ)]) =
      [1, 1] ∧ ([1, 1] : List ℕ) ≠ [1] := by
  constructor
  · rw [SimilarityModule_scaling_1N]
    simp [shape2, similaritySums, dotR]
  · decide

/-- C7 (amended): for every valid input with batch size `B` (one query row
per entry), each call of the similarity scorer returns a `[B, 1]` tensor —
one scalar per query per batch entry, carried in a trailing singleton
axis — under every scaling policy. -/
theorem c7_output_is_B_by_1 (l2Norm : Bool) (pol : String) (q s : T3R)
    (mask : List (List Bool)) (sizes : List ℝ) (B : ℕ)
    (hqB : q.length = B) (hsB : s.length = B) (hmB : mask.length = B)
    (hnB : sizes.length = B) (hrows : ∀ rows ∈ q, rows.length = 1) :
    (SimilarityModule l2Norm pol q s mask sizes).length = B ∧
    ∀ row ∈ SimilarityModule l2Norm pol q s mask sizes, row.length = 1 := by
  have hsum_len : (similaritySums l2Norm q s mask).length = B := by
    rw [similaritySums_eq_zip3, zip3With_length, hqB, hsB, hmB]
    simp
  have hsum_rows : ∀ row ∈ similaritySums l2Norm q s mask, row.length = 1 := by
    intro row hrow
    rw [similaritySums_eq_zip3] at hrow
    obtain ⟨qb, hqb, sb, hsb, mb, hmb, rfl⟩ := exists_of_mem_zip3With hrow
    rw [simEntry_length, hrows qb hqb]
    simp
  by_cases h1 : pol = "1/N"
  · subst h1
    rw [SimilarityModule_scaling_1N]
    constructor
    · rw [List.length_zipWith, hnB, hsum_len]
      simp
    · intro row hrow
      obtain ⟨n, hn2, row0, hrow0, rfl⟩ := exists_of_mem_zipWith hrow
      rw [List.length_map]
      exact hsum_rows row0 hrow0
  · by_cases h2 : pol = "1/sqrt(N)"
    · subst h2
      rw [SimilarityModule_scaling_sqrtN]
      constructor
      · rw [List.length_zipWith, hnB, hsum_len]
        simp
      · intro row hrow
        obtain ⟨n, hn2, row0, hrow0, rfl⟩ := exists_of_mem_zipWith hrow
        rw [List.length_map]
        exact hsum_rows row0 hrow0
    · rw [SimilarityModule_scaling_other l2Norm pol q s mask sizes h1 h2]
      exact ⟨hsum_len, hsum_rows⟩

/-- Witness for C7's amended statement at `B = 1`. -/
theorem c7_output_is_B_by_1_witness :
    (SimilarityModule false "1/N" [[[1]]] [[[1]]] [[true]] [(1 : ℝ)]).length = 1 ∧
    ∀ row ∈ SimilarityModule false "1/N" [[[1]]] [[[1]]] [[true]] [(1 : ℝ)],
      row.length = 1 :=
  c7_output_is_B_by_1 false "1/N" [[[1]]] [[[1]]] [[true]] [(1 : ℝ)] 1
    rfl rfl rfl rfl (by decide)

/-- A sum of squares of reals vanishes exactly when every element is zero. -/
theorem sum_sq_eq_zero_iff (row : List ℝ) :
    (row.map (fun x => x ^ 2)).sum = 0 ↔ ∀ x ∈ row, x = 0 := by
  induction row with
  | nil => simp
  | cons a t ih =>
    simp only [List.map_cons, List.sum_cons, List.mem_cons]
    constructor
    · intro h
      have hts : 0 ≤ (t.map (fun x => x ^ 2)).sum := by
        apply List.sum_nonneg
        intro x hx
        obtain ⟨y, hy, rfl⟩ := List.mem_map.mp hx
        exact sq_nonneg y
      have ha2 : a ^ 2 = 0 := by nlinarith [sq_nonneg a]
      have ht : (t.map (fun x => x ^ 2)).sum = 0 := by nlinarith [sq_nonneg a]
      intro x hx
      rcases hx with rfl | hx
      · exact (pow_eq_zero_iff (by norm_num : (2 : ℕ) ≠ 0)).mp ha2
      · exact ih.mp ht x hx
    · intro h
      have ha : a = 0 := h a (Or.inl rfl)
      have ht : ∀ x ∈ t, x = 0 := fun x hx => h x (Or.inr hx)
      rw [ha, ih.mpr ht]
      norm_num

end MHNfs

namespace MHNfs

/-- C8: the L2 normalization step of the similarity scorer is total.  For
every embedding row, either its Euclidean norm is exactly zero — which
happens precisely when the row is the zero vector — and the row is left
unchanged (division by the substituted divisor `1`), or the norm is nonzero
and every coordinate is divided by the Euclidean norm. -/
theorem c8_l2norm_total_on_zero (row : List ℝ) :
    (Real.sqrt ((row.map (fun x => x ^ 2)).sum) = 0 ∧ (∀ x ∈ row, x = 0) ∧
      l2normRow row = row) ∨
    (Real.sqrt ((row.map (fun x => x ^ 2)).sum) ≠ 0 ∧
      l2normRow row = row.map
        (fun x => x / Real.sqrt ((row.map (fun y => y ^ 2)).sum))) := by
  by_cases h : (row.map (fun x => x ^ 2)).sum = 0
  · left
    have hz : ∀ x ∈ row, x = 0 := (sum_sq_eq_zero_iff row).mp h
    have hsq : Real.sqrt ((row.map (fun x => x ^ 2)).sum) = 0 := by
      rw [h]
      exact Real.sqrt_zero
    refine ⟨hsq, hz, ?_⟩
    simp only [l2normRow, l2div]
    rw [if_pos hsq]
    simp
  · right
    have hnn : 0 ≤ (row.map (fun x => x ^ 2)).sum := by
      apply List.sum_nonneg
      intro x hx
      obtain ⟨y, hy, rfl⟩ := List.mem_map.mp hx
      exact sq_nonneg y
    have hpos : 0 < (row.map (fun x => x ^ 2)).sum := lt_of_le_of_ne hnn (Ne.symm h)
    have hsq : Real.sqrt ((row.map (fun x => x ^ 2)).sum) ≠ 0 :=
      Real.sqrt_ne_zero'.mpr hpos
    refine ⟨hsq, ?_⟩
    simp only [l2normRow, l2div]
    rw [if_neg hsq]

end MHNfs

namespace MHNfs

/-- Witness for C8 at the row `[3, 4]` (norm `5 ≠ 0`): each coordinate is
divided by the Euclidean norm. -/
theorem c8_l2norm_total_on_zero_witness :
    l2normRow [(3 : ℝ), 4] =
      [3 / Real.sqrt ((([(3 : ℝ), 4]).map (fun y => y ^ 2)).sum),
       4 / Real.sqrt ((([(3 : ℝ), 4]).map (fun y => y ^ 2)).sum)] := by
  rcases c8_l2norm_total_on_zero [(3 : ℝ), 4] with ⟨h0, hz, hrow⟩ | ⟨hne, hrow⟩
  · exfalso
    have h3 := hz 3 (by simp)
    norm_num at h3
  · rw [hrow]
    simp

end MHNfs
